import Mathlib

/-!
# Verification of erdtree's configuration-resolution core

Shallow embedding of `src/render/context/mod.rs`: the precedence merge of
command-line arguments against configuration-file arguments
(`Context::init`, `Context::pick_args_from`), the override/glob compiler
(`Context::overrides`), and the error taxonomy (`Error`).

External collaborators that are not part of the repository's included source
(the `clap` token parser, `crate::utils::uniq`, `config::parse_config`, and
the `ignore` crate's matcher) are modelled from the specification, as marked
on each such definition.
-/

set_option maxRecDepth 10000

/-! ## Basic token helpers -/

/-- Kebab-case rendering of an option identifier, embedding
`id.replace("_", "-")` from `Context::pick_args_from`. -/
def kebab (id : String) : String :=
  ⟨id.data.map (fun c => if c = '_' then '-' else c)⟩

/-- Inverse direction used by the token parser: a long-form flag spelling
maps back to the underscored identifier. -/
def dekebab (s : String) : String :=
  ⟨s.data.map (fun c => if c = '-' then '_' else c)⟩

/-- The long-form flag token for an identifier: `--<kebab-case-identifier>`. -/
def flagTok (id : String) : String :=
  "--" ++ kebab id

/-- Recognize a long-form flag token and recover its identifier.
A token is a long flag when it starts with `--` and carries at least one
further character (so the bare `--` sentinel is not a flag). -/
def longFlagId (t : String) : Option String :=
  if "--".data.isPrefixOf t.data ∧ 2 < t.data.length then some (dekebab ⟨t.data.drop 2⟩)
  else none

/-! ## Parsed Argument Sets (clap's `ArgMatches`, at the boundary) -/

/-- Provenance of an option's value, embedding `clap::parser::ValueSource`. -/
inductive ValueSource where
  | commandLine
  | envVariable
  | defaultValue
deriving DecidableEq, Repr

/-- One option's entry in a Parsed Argument Set: its identifier, its raw
textual values, and where they came from. -/
structure ArgEntry where
  id : String
  raws : List String
  source : ValueSource
deriving DecidableEq, Repr

/-- A Parsed Argument Set (clap's `ArgMatches` at the granularity this core
observes): an ordered collection of entries, one per present identifier. -/
structure ArgMatches where
  entries : List ArgEntry
deriving DecidableEq, Repr

/-- `ArgMatches::ids`: the identifiers present, in order. -/
def ArgMatches.ids (m : ArgMatches) : List String :=
  m.entries.map (fun e => e.id)

/-- `ArgMatches::try_get_raw`: the raw textual values for an identifier,
`none` when the identifier carries no value. -/
def ArgMatches.tryGetRaw (m : ArgMatches) (id : String) : Option (List String) :=
  (m.entries.find? (fun e => e.id == id)).map (fun e => e.raws)

/-- `ArgMatches::value_source`: the provenance recorded for an identifier. -/
def ArgMatches.valueSource (m : ArgMatches) (id : String) : Option ValueSource :=
  (m.entries.find? (fun e => e.id == id)).map (fun e => e.source)

/-- `ArgMatches::args_present`: whether the user supplied at least one
explicit (non-default) token. -/
def ArgMatches.argsPresent (m : ArgMatches) : Bool :=
  m.entries.any (fun e => e.source != ValueSource.defaultValue)

/-! ## The Option Schema (from the `Context` struct's clap attributes) -/

/-- Whether a recognized flag is boolean (bare flag) or carries values. -/
inductive ArgKind where
  | boolean
  | valued
deriving DecidableEq, Repr

/-- The Option Schema of the `Context` struct: every recognized long-form
flag and whether it is boolean or valued.  The positional `dir` is not a
flag and is handled separately by the parser. -/
def flagSchema : List (String × ArgKind) :=
  [("disk_usage", ArgKind.valued),
   ("glob", ArgKind.valued),
   ("iglob", ArgKind.valued),
   ("glob_case_insensitive", ArgKind.boolean),
   ("hidden", ArgKind.boolean),
   ("ignore_git", ArgKind.boolean),
   ("icons", ArgKind.boolean),
   ("ignore_git_ignore", ArgKind.boolean),
   ("level", ArgKind.valued),
   ("scale", ArgKind.valued),
   ("prefix", ArgKind.valued),
   ("prune", ArgKind.boolean),
   ("sort", ArgKind.valued),
   ("dirs_first", ArgKind.boolean),
   ("follow_links", ArgKind.boolean),
   ("threads", ArgKind.valued),
   ("suppress_size", ArgKind.boolean),
   ("size_left", ArgKind.boolean),
   ("no_config", ArgKind.boolean),
   ("completions", ArgKind.valued)]

/-- Look an identifier up in the Option Schema. -/
def flagKind (id : String) : Option ArgKind :=
  (flagSchema.find? (fun p => p.1 == id)).map (fun p => p.2)

/-! ## The materialized configuration (id → raw values) -/

/-- A structured parse error from the token parser; `msg` is its
diagnostic. Embeds `clap::Error` at the granularity this core observes. -/
structure ClapError where
  msg : String
deriving DecidableEq, Repr

/-- The materialized result of parsing: identifier → raw values, in first
insertion order. -/
abbrev Matches := List (String × List String)

instance {α β : Type} [DecidableEq α] [DecidableEq β] : DecidableEq (Except α β) :=
  fun x y =>
    match x, y with
    | Except.ok a, Except.ok b =>
      if h : a = b then Decidable.isTrue (by rw [h])
      else Decidable.isFalse (fun hc => by cases hc; exact h rfl)
    | Except.error a, Except.error b =>
      if h : a = b then Decidable.isTrue (by rw [h])
      else Decidable.isFalse (fun hc => by cases hc; exact h rfl)
    | Except.ok _, Except.error _ => Decidable.isFalse (fun hc => by cases hc)
    | Except.error _, Except.ok _ => Decidable.isFalse (fun hc => by cases hc)

/-- Append one raw value to an identifier's entry, creating the entry at the
end when absent. -/
def pushVal (st : Matches) (id : String) (v : String) : Matches :=
  match st with
  | [] => [(id, [v])]
  | (i, vs) :: rest =>
    if i == id then (i, vs ++ [v]) :: rest else (i, vs) :: pushVal rest id v

/-- The raw values recorded for an identifier, if any. -/
def lookupVals (st : Matches) (id : String) : Option (List String) :=
  (st.find? (fun p => p.1 == id)).map (fun p => p.2)

/-- The final Configuration's value for an identifier: the recorded raw
values, with an absent boolean flag denoting the literal `false`
(absence = false). -/
def valueOf (st : Matches) (id : String) : List String :=
  match lookupVals st id with
  | some vs => vs
  | none =>
    match flagKind id with
    | some ArgKind.boolean => ["false"]
    | _ => []

/-! ## The Token Parser (modelled from the spec) -/

/-- Modelled from the spec: the external Token Parser (`clap`, §4.1) over
long-form tokens — it turns an ordered token sequence into a Parsed
Argument Set validated against the Option Schema, or fails with a
structured parse error naming the offending token.  A long flag of boolean
kind records the literal `"true"`; a valued flag consumes the following
token as its value; a bare token is the positional directory, which may
appear at most once. -/
def parseTokens : List String → Matches → Except ClapError Matches
  | [], st => Except.ok st
  | t :: rest, st =>
    match longFlagId t with
    | some id =>
      match flagKind id with
      | none => Except.error ⟨"error: unexpected argument " ++ t⟩
      | some ArgKind.boolean => parseTokens rest (pushVal st id "true")
      | some ArgKind.valued =>
        match rest with
        | [] => Except.error ⟨"error: a value is required for " ++ t⟩
        | v :: rest2 => parseTokens rest2 (pushVal st id v)
    | none =>
      match lookupVals st "dir" with
      | some _ => Except.error ⟨"error: unexpected argument " ++ t⟩
      | none => parseTokens rest (pushVal st "dir" t)

/-- Modelled from the spec: `Command::get_matches_from` — the first token is
the program name (the merge path prepends the `"--"` sentinel for it) and
the remainder is parsed against the Option Schema. -/
def getMatchesFrom (tokens : List String) : Except ClapError Matches :=
  parseTokens (tokens.drop 1) []

/-- Tag every parsed entry with one provenance, turning a materialized parse
result back into a Parsed Argument Set (tokens parsed from a sequence all
carry CommandLine provenance in clap). -/
def toArgMatches (src : ValueSource) (m : Matches) : ArgMatches :=
  ⟨m.map (fun p => ⟨p.1, p.2, src⟩)⟩

/-- Modelled from the spec: `Context::from_arg_matches` — materializes a
Parsed Argument Set into the final Configuration, failing with a parser
error when the set names an identifier absent from the Option Schema. -/
def from_arg_matches (m : ArgMatches) : Except ClapError Matches :=
  if m.entries.all (fun e => e.id == "dir" || e.id == "Context" || (flagKind e.id).isSome) then
    Except.ok (m.entries.map (fun e => (e.id, e.raws)))
  else
    Except.error ⟨"error: invalid argument set"⟩

/-! ## Deduplication (modelled from the spec) -/

/-- Modelled from the spec: `crate::utils::uniq` (the `utils` module is not
part of the included source) — remove duplicates from a list while
preserving first-seen order; the pass is idempotent.  `uniqAux seen l`
keeps the elements of `l` not in `seen`, remembering what it has kept. -/
def uniqAux (seen : List String) : List String → List String
  | [] => []
  | x :: xs => if x ∈ seen then uniqAux seen xs else x :: uniqAux (x :: seen) xs

/-- Modelled from the spec: first-seen-order deduplication. -/
def uniq (l : List String) : List String :=
  uniqAux [] l

/-! ## The Precedence Merger (`Context::init` lines 144–175) -/

/-- Embeds `Context::pick_args_from`: render one identifier's chosen raw
values into long-form tokens — each value becomes a `--flag value` pair,
pairs whose value is the literal `"false"` are dropped whole, and remaining
tokens equal to the literal `"true"` are stripped (leaving the bare flag). -/
def pick_args_from (id : String) (ms : ArgMatches) (args : List String) : List String :=
  match ms.tryGetRaw id with
  | some raw =>
    let kebap := kebab id
    let raw_args :=
      (((raw.map (fun s => ["--" ++ kebap, s])).filter
          (fun pair => pair.getD 1 "" != "false")).flatten).filter
        (fun s => s != "true")
    args ++ raw_args
  | none => args

/-- One iteration of the merge loop in `Context::init`: skip the synthetic
root identifier, copy the command-line set's raw positional directory
verbatim when present, and otherwise pick from the command-line set exactly
when its provenance is CommandLine, else from the config set. -/
def mergeStep (user_args config_args : ArgMatches) (args : List String) (id : String) :
    List String :=
  if id = "Context" then args
  else
    match (if id = "dir" then user_args.tryGetRaw id else none) with
    | some raw => args ++ raw
    | none =>
      match user_args.valueSource id with
      | some ValueSource.commandLine => pick_args_from id user_args args
      | some _ => pick_args_from id config_args args
      | none => pick_args_from id config_args args

/-- The Precedence Merger: the canonical token sequence built by
`Context::init` when both a command-line set and a config set exist —
the `"--"` sentinel, then one rendered segment per identifier of the
deduplicated union (command-line identifiers first). -/
def mergeArgs (user_args config_args : ArgMatches) : List String :=
  let ids := uniq (user_args.ids ++ config_args.ids)
  ids.foldl (mergeStep user_args config_args) ["--"]

/-! ## Error taxonomy and initialization (`Context::init`, `Error`) -/

/-- Embeds the `Error` enum: both kinds wrap the same underlying
parser-error shape. -/
inductive Error where
  | argParse (e : ClapError)
  | config (e : ClapError)
deriving DecidableEq, Repr

/-- Embeds `impl Display for Error`. -/
def Error.display : Error → String
  | Error.argParse e => e.msg
  | Error.config e => "A configuration file was found but failed to parse: " ++ e.msg

/-- The `no_config` flag's value read off a Parsed Argument Set, embedding
`user_args.get_one("no_config").map(bool::clone).unwrap_or(false)`. -/
def noConfigOf (m : ArgMatches) : Bool :=
  "true" ∈ (m.tryGetRaw "no_config").getD []

/-- Embeds `Context::init`, parametrized over the invocation tokens and the
(optional) tokens recovered from the configuration file's text (the
file-system lookup and `config::parse_config` are outside the included
source; their product — a token sequence whose first slot plays the program
name — is taken as input).  The command-line-only paths fail with ArgParse;
every path that consumed configuration content fails with Config. -/
def init (userTokens : List String) (configTokens : Option (List String)) :
    Except Error Matches :=
  match getMatchesFrom userTokens with
  | Except.error e => Except.error (Error.argParse e)
  | Except.ok userM =>
    let user_args := toArgMatches ValueSource.commandLine userM
    if noConfigOf user_args then (from_arg_matches user_args).mapError Error.argParse
    else
      match configTokens with
      | some ctoks =>
        match getMatchesFrom ctoks with
        | Except.error e => Except.error (Error.config e)
        | Except.ok configM =>
          let config_args := toArgMatches ValueSource.commandLine configM
          if !user_args.argsPresent then
            (from_arg_matches config_args).mapError Error.config
          else
            let args := mergeArgs user_args config_args
            match getMatchesFrom args with
            | Except.error e => Except.error (Error.config e)
            | Except.ok clM =>
              (from_arg_matches (toArgMatches ValueSource.commandLine clM)).mapError
                Error.config
      | none => (from_arg_matches user_args).mapError Error.argParse

/-! ## The Override Compiler (`Context::overrides`) -/

/-- One compiled override pattern: its negation bit (a leading `!` excludes
instead of includes), its glob text, and the case-sensitivity mode the
builder was in when the pattern was added. -/
structure OverridePat where
  neg : Bool
  glob : String
  ci : Bool
deriving DecidableEq, Repr

/-- `OverrideBuilder::add`: a leading `!` marks the pattern as an exclusion;
the builder's current case-sensitivity mode is captured with the pattern. -/
def addPattern (s : String) (ci : Bool) : OverridePat :=
  if "!".data.isPrefixOf s.data then ⟨true, ⟨s.data.drop 1⟩, ci⟩ else ⟨false, s, ci⟩

/-- The Configuration fields consumed by the Override Compiler, with the
field names of the `Context` struct. -/
structure Context where
  glob : List String := []
  iglob : List String := []
  glob_case_insensitive : Bool := false
  ignore_git : Bool := false
deriving DecidableEq, Repr

/-- Embeds `Context::overrides` as the ordered sequence of patterns added to
the builder: the negated `.git` exclusion first when `ignore_git` is set;
nothing else when both glob lists are empty; otherwise the plain globs
(case-insensitive exactly when `glob_case_insensitive` is set, since the
mode is switched before they are added) and then the insensitive globs
(the mode is unconditionally switched to case-insensitive first). -/
def Context.overrides (c : Context) : List OverridePat :=
  let builder : List OverridePat := []
  let builder := if c.ignore_git then builder ++ [addPattern "!.git" false] else builder
  if c.glob.isEmpty && c.iglob.isEmpty then builder
  else
    let builder := builder ++ c.glob.map (fun g => addPattern g c.glob_case_insensitive)
    builder ++ c.iglob.map (fun g => addPattern g true)

/-- Case-folding character comparison for glob matching. -/
def charMatch (ci : Bool) (p c : Char) : Bool :=
  if ci then p.toLower == c.toLower else p == c

/-- Modelled from the spec: the matcher engine's glob semantics at the
granularity the spec fixes — `*` matches any character run, every other
character matches itself, under the pattern's captured case-sensitivity
mode. -/
def globMatch (ci : Bool) : List Char → List Char → Bool
  | [], s => s.isEmpty
  | p :: ps, s =>
    if p = '*' then s.tails.any (fun t => globMatch ci ps t)
    else
      match s with
      | [] => false
      | c :: cs => charMatch ci p c && globMatch ci ps cs

/-- Whether one compiled pattern's glob matches a path. -/
def OverridePat.matches (p : OverridePat) (path : String) : Bool :=
  globMatch p.ci p.glob.data path.data

/-- Modelled from the spec: the compiled Path Filter's verdict (the `ignore`
crate's matcher is external) — a path matches iff no negated pattern
matches it and, when positive patterns exist, some positive pattern
matches it; with no patterns at all everything matches. -/
def filterMatches (ps : List OverridePat) (path : String) : Bool :=
  !(ps.any (fun p => p.neg && p.matches path)) &&
    (!(ps.any (fun p => !p.neg)) || ps.any (fun p => !p.neg && p.matches path))

/-! ## Lemmas about deduplication -/

theorem mem_uniqAux {x : String} : ∀ (l seen : List String),
    x ∈ uniqAux seen l ↔ x ∈ l ∧ x ∉ seen := by
  intro l
  induction l with
  | nil => intro seen; simp [uniqAux]
  | cons y ys ih =>
    intro seen
    by_cases hy : y ∈ seen
    · simp only [uniqAux, if_pos hy, ih, List.mem_cons]
      constructor
      · rintro ⟨h1, h2⟩; exact ⟨Or.inr h1, h2⟩
      · rintro ⟨h1 | h1, h2⟩
        · subst h1; exact absurd hy h2
        · exact ⟨h1, h2⟩
    · simp only [uniqAux, if_neg hy, List.mem_cons, ih, List.mem_cons]
      constructor
      · rintro (h | ⟨h1, h2⟩)
        · subst h; exact ⟨Or.inl rfl, hy⟩
        · exact ⟨Or.inr h1, fun hc => h2 (Or.inr hc)⟩
      · rintro ⟨h1 | h1, h2⟩
        · subst h1; exact Or.inl rfl
        · by_cases hxy : x = y
          · exact Or.inl hxy
          · exact Or.inr ⟨h1, fun hc => (by cases hc with
              | inl h => exact hxy h
              | inr h => exact h2 h)⟩

theorem nodup_uniqAux : ∀ (l seen : List String), (uniqAux seen l).Nodup := by
  intro l
  induction l with
  | nil => intro seen; simp [uniqAux]
  | cons y ys ih =>
    intro seen
    by_cases hy : y ∈ seen
    · simpa [uniqAux, if_pos hy] using ih seen
    · simp only [uniqAux, if_neg hy, List.nodup_cons]
      refine ⟨fun hc => ?_, ih (y :: seen)⟩
      have := (mem_uniqAux ys (y :: seen)).mp hc
      exact this.2 (List.mem_cons_self y seen)

theorem uniqAux_sublist : ∀ (l seen : List String), (uniqAux seen l).Sublist l := by
  intro l
  induction l with
  | nil => intro seen; simp [uniqAux]
  | cons y ys ih =>
    intro seen
    by_cases hy : y ∈ seen
    · rw [uniqAux, if_pos hy]
      exact (ih seen).trans (List.sublist_cons_self y ys)
    · rw [uniqAux, if_neg hy]
      exact List.Sublist.cons₂ y (ih (y :: seen))

theorem uniqAux_eq_self : ∀ (l seen : List String), l.Nodup → (∀ x ∈ l, x ∉ seen) →
    uniqAux seen l = l := by
  intro l
  induction l with
  | nil => intro seen _ _; rfl
  | cons y ys ih =>
    intro seen hnd hs
    have hy : y ∉ seen := hs y (List.mem_cons_self y ys)
    rw [uniqAux, if_neg hy]
    congr 1
    apply ih
    · exact (List.nodup_cons.mp hnd).2
    · intro x hx
      intro hc
      cases List.mem_cons.mp hc with
      | inl h => exact (List.nodup_cons.mp hnd).1 (h ▸ hx)
      | inr h => exact hs x (List.mem_cons_of_mem y hx) h

theorem uniq_idem (l : List String) : uniq (uniq l) = uniq l := by
  apply uniqAux_eq_self
  · exact nodup_uniqAux l []
  · intro x _ hc
    exact absurd hc (List.not_mem_nil x)

theorem uniqAux_congr : ∀ (l s₁ s₂ : List String), (∀ x, x ∈ s₁ ↔ x ∈ s₂) →
    uniqAux s₁ l = uniqAux s₂ l := by
  intro l
  induction l with
  | nil => intro s₁ s₂ _; rfl
  | cons y ys ih =>
    intro s₁ s₂ h
    by_cases hy : y ∈ s₁
    · rw [uniqAux, if_pos hy, uniqAux, if_pos ((h y).mp hy)]
      exact ih s₁ s₂ h
    · rw [uniqAux, if_neg hy, uniqAux, if_neg (fun hc => hy ((h y).mpr hc))]
      congr 1
      apply ih
      intro x
      simp only [List.mem_cons, h x]

theorem uniqAux_append : ∀ (l₁ l₂ seen : List String),
    uniqAux seen (l₁ ++ l₂) = uniqAux seen l₁ ++ uniqAux (l₁ ++ seen) l₂ := by
  intro l₁
  induction l₁ with
  | nil =>
    intro l₂ seen
    rw [List.nil_append, uniqAux, List.nil_append]
    exact (List.nil_append _).symm
  | cons y ys ih =>
    intro l₂ seen
    by_cases hy : y ∈ seen
    · rw [List.cons_append, uniqAux, if_pos hy, uniqAux, if_pos hy, ih]
      congr 1
      apply uniqAux_congr
      intro x
      simp only [List.cons_append, List.mem_cons, List.mem_append]
      constructor
      · rintro (h | h)
        · exact Or.inr (Or.inl h)
        · exact Or.inr (Or.inr h)
      · rintro (rfl | h | h)
        · exact Or.inr hy
        · exact Or.inl h
        · exact Or.inr h
    · rw [List.cons_append, uniqAux, if_neg hy, uniqAux, if_neg hy, ih]
      rw [List.cons_append]
      congr 1
      congr 1
      apply uniqAux_congr
      intro x
      simp only [List.cons_append, List.mem_cons, List.mem_append]
      tauto

theorem uniq_append (u c : List String) : uniq (u ++ c) = uniq u ++ uniqAux u c := by
  rw [uniq, uniqAux_append]
  congr 1
  apply uniqAux_congr
  intro x
  simp

/-! ## Lemmas about the Override Compiler -/

theorem addPattern_git : addPattern "!.git" false = ⟨true, ".git", false⟩ := by
  decide

theorem overrides_cons_git (c : Context) (h : c.ignore_git = true) :
    ∃ rest, c.overrides = OverridePat.mk true ".git" false :: rest := by
  unfold Context.overrides
  simp only [h, if_true, List.nil_append, addPattern_git]
  by_cases hg : (c.glob.isEmpty && c.iglob.isEmpty) = true
  · rw [if_pos hg]
    exact ⟨[], rfl⟩
  · rw [if_neg hg]
    exact ⟨_, List.cons_append _ _ _⟩

theorem filterMatches_of_neg {ps : List OverridePat} {p : OverridePat} {path : String}
    (hmem : p ∈ ps) (hneg : p.neg = true) (hm : p.matches path = true) :
    filterMatches ps path = false := by
  unfold filterMatches
  have hany : ps.any (fun q => q.neg && q.matches path) = true :=
    List.any_eq_true.mpr ⟨p, hmem, by rw [hneg, hm]; rfl⟩
  rw [hany]
  rfl

theorem gitPat_matches_git : OverridePat.matches ⟨true, ".git", false⟩ ".git" = true := by
  decide

theorem overrides_iglob_indep (gs : List String) (b : Bool) (path : String) :
    filterMatches
      (Context.overrides ⟨[], gs, b, false⟩) path =
    filterMatches
      (Context.overrides ⟨[], gs, false, false⟩) path := by
  unfold Context.overrides
  cases gs with
  | nil => rfl
  | cons g rest => rfl

/-! ## Claim theorems: Override Compiler -/

/-- **C6**: for every Configuration with `ignore_git` set, the Override
Compiler adds the negated pattern excluding the top-level `.git` entry
first, before any other pattern, and the compiled Path Filter never matches
the path `.git`, regardless of the other glob or iglob patterns present. -/
theorem C6_git_exclusion (c : Context) (h : c.ignore_git = true) :
    (c.overrides).head? = some ⟨true, ".git", false⟩ ∧
    filterMatches c.overrides ".git" = false := by
  obtain ⟨rest, hrest⟩ := overrides_cons_git c h
  constructor
  · rw [hrest]; rfl
  · exact filterMatches_of_neg (hrest ▸ List.mem_cons_self _ rest) rfl gitPat_matches_git

/-- Witness for C6 at a concrete Configuration that also carries competing
glob patterns naming `.git` itself. -/
theorem C6_git_exclusion_witness :
    (Context.overrides ⟨[".git", "*"], ["*"], false, true⟩).head? =
      some ⟨true, ".git", false⟩ ∧
    filterMatches (Context.overrides ⟨[".git", "*"], ["*"], false, true⟩) ".git" = false :=
  C6_git_exclusion ⟨[".git", "*"], ["*"], false, true⟩ rfl

/-- **C7**: a plain glob pattern is matched case-sensitively when
`glob-case-insensitive` is unset (plain glob `*.RS` does not match `x.rs`)
and case-insensitively when it is set, while an insensitive glob is always
matched case-insensitively (`iglob *.RS` matches `x.rs`) whether or not the
flag is set — the filter built from an iglob list is unaffected by the
flag. -/
theorem C7_case_rule :
    filterMatches (Context.overrides ⟨["*.RS"], [], false, false⟩) "x.rs" = false ∧
    filterMatches (Context.overrides ⟨["*.RS"], [], true, false⟩) "x.rs" = true ∧
    filterMatches (Context.overrides ⟨[], ["*.RS"], false, false⟩) "x.rs" = true ∧
    filterMatches (Context.overrides ⟨[], ["*.RS"], true, false⟩) "x.rs" = true ∧
    (∀ (gs : List String) (b : Bool) (path : String),
      filterMatches (Context.overrides ⟨[], gs, b, false⟩) path =
        filterMatches (Context.overrides ⟨[], gs, false, false⟩) path) :=
  ⟨by decide, by decide, by decide, by decide, overrides_iglob_indep⟩

/-! ## Claim theorems: deduplication -/

/-- **C9**: the merger's identifier-union step preserves first-seen order —
the deduplicated union decomposes as the deduplicated command-line
identifiers followed by the additional config-file identifiers (each of
which comes from the config list and not the command-line list) — and the
deduplication pass is idempotent; merging the identifier lists
`[A,B,A,C]` and `[A,B,C]` yields the final merge order `[A,B,C]`. -/
theorem C9_dedup_idempotent :
    (∀ l, uniq (uniq l) = uniq l) ∧
    (∀ l, (uniq l).Sublist l) ∧
    (∀ u c, uniq (u ++ c) = uniq u ++ uniqAux u c ∧
      ∀ x ∈ uniqAux u c, x ∈ c ∧ x ∉ u) ∧
    uniq (["A", "B", "A", "C"] ++ ["A", "B", "C"]) = ["A", "B", "C"] := by
  refine ⟨uniq_idem, fun l => uniqAux_sublist l [],
    fun u c => ⟨uniq_append u c, fun x hx => (mem_uniqAux c u).mp hx⟩, by decide⟩

/-- Witness for C9: the additional-identifier part of the decomposition at a
concrete pair of lists. -/
theorem C9_dedup_idempotent_witness : "B" ∈ ["B", "C"] ∧ "B" ∉ ["A"] :=
  (C9_dedup_idempotent.2.2.1 ["A"] ["B", "C"]).2 "B" (by decide)

/-! ## Lemmas about token rendering (`Context::pick_args_from`) -/

/-- The tokens `pick_args_from` renders for one identifier from given raw
values. -/
def renderTokens (id : String) (raws : List String) : List String :=
  (((raws.map (fun s => [flagTok id, s])).filter
      (fun pair => pair.getD 1 "" != "false")).flatten).filter
    (fun s => s != "true")

theorem pick_eq_render (id : String) (m : ArgMatches) (args : List String) :
    pick_args_from id m args = args ++ renderTokens id ((m.tryGetRaw id).getD []) := by
  unfold pick_args_from renderTokens flagTok
  cases h : m.tryGetRaw id with
  | none => simp
  | some raw => rfl

theorem renderTokens_nil (id : String) : renderTokens id [] = [] := rfl

theorem renderTokens_false (id : String) : renderTokens id ["false"] = [] := rfl

/-- All Option Schema identifiers round-trip through kebab-case flag
rendering, and no flag token collides with the boolean literals. -/
theorem flagSchema_facts : ∀ p ∈ flagSchema,
    longFlagId (flagTok p.1) = some p.1 ∧ flagTok p.1 ≠ "true" ∧ flagTok p.1 ≠ "false" := by
  decide

theorem flagKind_facts {id : String} {k : ArgKind} (h : flagKind id = some k) :
    longFlagId (flagTok id) = some id ∧ flagTok id ≠ "true" ∧ flagTok id ≠ "false" := by
  unfold flagKind at h
  cases hf : flagSchema.find? (fun p => p.1 == id) with
  | none => rw [hf] at h; cases h
  | some pr =>
    have hmem := List.mem_of_find?_eq_some hf
    have hpred := List.find?_some hf
    have hid : pr.1 = id := by simpa using hpred
    have := flagSchema_facts pr hmem
    rw [hid] at this
    exact this

theorem renderTokens_true (id : String) (hf : flagTok id ≠ "true") :
    renderTokens id ["true"] = [flagTok id] := by
  unfold renderTokens
  simp [hf]

theorem renderTokens_valued (id : String) (hf : flagTok id ≠ "true") :
    ∀ raws : List String, (∀ v ∈ raws, v ≠ "true" ∧ v ≠ "false") →
      renderTokens id raws = (raws.map (fun v => [flagTok id, v])).flatten := by
  intro raws
  induction raws with
  | nil => intro _; rfl
  | cons v vs ih =>
    intro h
    have hv := h v (List.mem_cons_self v vs)
    have hrest : ∀ w ∈ vs, w ≠ "true" ∧ w ≠ "false" :=
      fun w hw => h w (List.mem_cons_of_mem v hw)
    unfold renderTokens at ih ⊢
    have hv2 : ([flagTok id, v].getD 1 "" != "false") = true := by
      simpa using hv.2
    have hv1 : (v != "true") = true := by simpa using hv.1
    have hf1 : (flagTok id != "true") = true := by simpa using hf
    simp only [List.map_cons, List.filter_cons, hv2, if_true, List.flatten_cons,
      List.filter_append, List.filter_nil, hf1, hv1]
    rw [ih hrest]

/-! ## Lemmas about the materialized matches -/

theorem lookupVals_pushVal_same : ∀ (st : Matches) (id v : String),
    lookupVals (pushVal st id v) id = some ((lookupVals st id).getD [] ++ [v]) := by
  intro st
  induction st with
  | nil =>
    intro id v
    simp [pushVal, lookupVals]
  | cons p rest ih =>
    intro id v
    obtain ⟨i, vs⟩ := p
    by_cases h : i = id
    · subst h
      simp [pushVal, lookupVals]
    · have hb : (i == id) = false := by simpa using h
      simp only [pushVal, hb, Bool.false_eq_true, if_false, lookupVals, List.find?]
      exact ih id v

theorem lookupVals_pushVal_other : ∀ (st : Matches) (id j v : String), id ≠ j →
    lookupVals (pushVal st id v) j = lookupVals st j := by
  intro st
  induction st with
  | nil =>
    intro id j v h
    have hb : (id == j) = false := by simpa using h
    simp [pushVal, lookupVals, hb]
  | cons p rest ih =>
    intro id j v h
    obtain ⟨i, vs⟩ := p
    by_cases hi : i = id
    · subst hi
      have hb : (i == i) = true := by simp
      have hbj : (i == j) = false := by simpa using h
      simp [pushVal, lookupVals, hbj]
    · have hb : (i == id) = false := by simpa using hi
      simp only [pushVal, hb, Bool.false_eq_true, if_false, lookupVals, List.find?]
      cases hbj : (i == j) with
      | true => rfl
      | false => exact ih id j v h

theorem valueOf_single (id v : String) : valueOf [(id, [v])] id = [v] := by
  simp [valueOf, lookupVals]

theorem parse_flag_bool (id : String) (hk : flagKind id = some ArgKind.boolean) :
    parseTokens [flagTok id] [] = Except.ok [(id, ["true"])] := by
  have hl := (flagKind_facts hk).1
  simp only [parseTokens, hl, hk]
  rfl

/-! ## Claim theorems: boolean flag round-trip and repeatable rendering -/

/-- **C3**: a chosen boolean raw value equal to the literal `false` renders
to no tokens at all, a boolean raw value equal to the literal `true`
renders to exactly the bare long-form flag token with no trailing value
token, and re-parsing the rendered tokens reproduces the original boolean
value. -/
theorem C3_bool_flag_roundtrip (id : String) (m : ArgMatches) (raws : List String)
    (hk : flagKind id = some ArgKind.boolean)
    (hr : m.tryGetRaw id = some raws)
    (hb : raws = ["true"] ∨ raws = ["false"]) :
    (raws = ["false"] → pick_args_from id m [] = []) ∧
    (raws = ["true"] → pick_args_from id m [] = [flagTok id]) ∧
    ∃ st, parseTokens (pick_args_from id m []) [] = Except.ok st ∧ valueOf st id = raws := by
  have hpick := pick_eq_render id m []
  rw [hr, Option.getD_some] at hpick
  cases hb with
  | inl ht =>
    subst ht
    rw [renderTokens_true id (flagKind_facts hk).2.1, List.nil_append] at hpick
    refine ⟨?_, ?_, ?_⟩
    · intro hc
      exact absurd hc (by decide)
    · intro _
      exact hpick
    · refine ⟨[(id, ["true"])], ?_, valueOf_single id "true"⟩
      rw [hpick]
      exact parse_flag_bool id hk
  | inr hf =>
    subst hf
    rw [renderTokens_false, List.append_nil] at hpick
    refine ⟨?_, ?_, ?_⟩
    · intro _
      exact hpick
    · intro hc
      exact absurd hc (by decide)
    · refine ⟨[], ?_, ?_⟩
      · rw [hpick]
        rfl
      · simp [valueOf, lookupVals, hk]

/-- Witness for C3 at the concrete boolean flag `hidden` with raw value
`true`. -/
theorem C3_bool_flag_roundtrip_witness :
    (["true"] = ["false"] →
      pick_args_from "hidden" ⟨[⟨"hidden", ["true"], ValueSource.commandLine⟩]⟩ [] = []) ∧
    (["true"] = ["true"] →
      pick_args_from "hidden" ⟨[⟨"hidden", ["true"], ValueSource.commandLine⟩]⟩ [] =
        [flagTok "hidden"]) ∧
    ∃ st,
      parseTokens (pick_args_from "hidden" ⟨[⟨"hidden", ["true"], ValueSource.commandLine⟩]⟩ [])
          [] = Except.ok st ∧
      valueOf st "hidden" = ["true"] :=
  C3_bool_flag_roundtrip "hidden" ⟨[⟨"hidden", ["true"], ValueSource.commandLine⟩]⟩ ["true"]
    (by decide) (by decide) (Or.inl rfl)

/-- **C10, counterexample to the claim as stated**: a repeatable option
carrying the single raw value `"false"` contributes no flag token at all to
the canonical sequence — not one flag copy followed by that value. -/
theorem C10_counterexample :
    (⟨[⟨"glob", ["false"], ValueSource.commandLine⟩]⟩ : ArgMatches).tryGetRaw "glob" =
      some ["false"] ∧
    pick_args_from "glob" ⟨[⟨"glob", ["false"], ValueSource.commandLine⟩]⟩ [] = [] ∧
    ([] : List String) ≠ ["--glob", "false"] := by
  decide

/-- **C10, amended**: for every repeatable option chosen during the merge
whose raw values avoid the boolean literals `true`/`false`, the rendered
token sequence contains one copy of the long-form flag token per raw value,
each immediately followed by that value, in the original order. -/
theorem C10_repeatable_rendering (id : String) (m : ArgMatches) (args : List String)
    (raws : List String) (hk : flagKind id = some ArgKind.valued)
    (hr : m.tryGetRaw id = some raws)
    (h : ∀ v ∈ raws, v ≠ "true" ∧ v ≠ "false") :
    pick_args_from id m args = args ++ (raws.map (fun v => [flagTok id, v])).flatten := by
  rw [pick_eq_render, hr, Option.getD_some]
  rw [renderTokens_valued id (flagKind_facts hk).2.1 raws h]

/-- Witness for C10 at two concrete glob patterns. -/
theorem C10_repeatable_rendering_witness :
    pick_args_from "glob" ⟨[⟨"glob", ["*.rs", "*.md"], ValueSource.commandLine⟩]⟩ [] =
      [] ++ ((["*.rs", "*.md"].map (fun v => [flagTok "glob", v])).flatten) :=
  C10_repeatable_rendering "glob" ⟨[⟨"glob", ["*.rs", "*.md"], ValueSource.commandLine⟩]⟩ []
    ["*.rs", "*.md"] (by decide) (by decide) (by decide)

/-! ## Lemmas about the initialization state machine -/

theorem init_user_err (ut : List String) (cfg : Option (List String)) (e : ClapError)
    (h : getMatchesFrom ut = Except.error e) :
    init ut cfg = Except.error (Error.argParse e) := by
  unfold init
  rw [h]

theorem init_config_path (ut ct : List String) (uM : Matches)
    (hu : getMatchesFrom ut = Except.ok uM)
    (hnc : noConfigOf (toArgMatches ValueSource.commandLine uM) = false) :
    init ut (some ct) =
      (match getMatchesFrom ct with
       | Except.error e => Except.error (Error.config e)
       | Except.ok cM =>
         let config_args := toArgMatches ValueSource.commandLine cM
         if !(toArgMatches ValueSource.commandLine uM).argsPresent then
           (from_arg_matches config_args).mapError Error.config
         else
           match getMatchesFrom (mergeArgs (toArgMatches ValueSource.commandLine uM)
               config_args) with
           | Except.error e => Except.error (Error.config e)
           | Except.ok clM =>
             (from_arg_matches (toArgMatches ValueSource.commandLine clM)).mapError
               Error.config) := by
  unfold init
  rw [hu]
  simp only [hnc, Bool.false_eq_true, if_false]

/-! ## Claim theorems: error taxonomy and initialization paths -/

/-- **C4**: a parse failure on the command-line-only path — config absent,
or config disabled (`no_config` set), in which case the outcome is the
direct command-line materialization with failures wrapped as ArgParse — is
the ArgParse kind, displayed as the underlying parser diagnostic verbatim;
a failure past the point where configuration content was read is the
Config kind, displayed with the configuration-file prefix; the two kinds
wrap the same parser-error shape but are distinguishable. -/
theorem C4_error_taxonomy :
    (∀ e : ClapError, (Error.argParse e).display = e.msg) ∧
    (∀ e : ClapError,
      (Error.config e).display = "A configuration file was found but failed to parse: " ++ e.msg) ∧
    (∀ e e' : ClapError, Error.argParse e ≠ Error.config e') ∧
    (∀ (ut : List String) (err : Error), init ut none = Except.error err →
      ∃ e, err = Error.argParse e) ∧
    (∀ (ut : List String) (cfg : Option (List String)) (uM : Matches),
      getMatchesFrom ut = Except.ok uM →
      noConfigOf (toArgMatches ValueSource.commandLine uM) = true →
      init ut cfg =
        (from_arg_matches (toArgMatches ValueSource.commandLine uM)).mapError
          Error.argParse) ∧
    (∀ (ut ct : List String) (uM : Matches) (err : Error),
      getMatchesFrom ut = Except.ok uM →
      noConfigOf (toArgMatches ValueSource.commandLine uM) = false →
      init ut (some ct) = Except.error err → ∃ e, err = Error.config e) := by
  refine ⟨fun e => rfl, fun e => rfl, ?_, ?_, ?_, ?_⟩
  · intro e e' hc
    cases hc
  · intro ut err h
    unfold init at h
    cases hg : getMatchesFrom ut with
    | error e =>
      rw [hg] at h
      cases h
      exact ⟨e, rfl⟩
    | ok uM =>
      rw [hg] at h
      simp only at h
      by_cases hnc : noConfigOf (toArgMatches ValueSource.commandLine uM) = true
      · rw [if_pos hnc] at h
        cases hfa : from_arg_matches (toArgMatches ValueSource.commandLine uM) with
        | error e =>
          rw [hfa] at h
          cases h
          exact ⟨e, rfl⟩
        | ok m => rw [hfa] at h; cases h
      · rw [if_neg hnc] at h
        cases hfa : from_arg_matches (toArgMatches ValueSource.commandLine uM) with
        | error e =>
          rw [hfa] at h
          cases h
          exact ⟨e, rfl⟩
        | ok m => rw [hfa] at h; cases h
  · intro ut cfg uM hu hnc
    unfold init
    rw [hu]
    simp only [hnc, if_true]
  · intro ut ct uM err hu hnc h
    rw [init_config_path ut ct uM hu hnc] at h
    cases hc : getMatchesFrom ct with
    | error e =>
      rw [hc] at h
      cases h
      exact ⟨e, rfl⟩
    | ok cM =>
      rw [hc] at h
      simp only at h
      by_cases hap : (toArgMatches ValueSource.commandLine uM).argsPresent = true
      · simp only [hap, Bool.not_true, Bool.false_eq_true, if_false] at h
        cases hm : getMatchesFrom
            (mergeArgs (toArgMatches ValueSource.commandLine uM)
              (toArgMatches ValueSource.commandLine cM)) with
        | error e =>
          rw [hm] at h
          cases h
          exact ⟨e, rfl⟩
        | ok clM =>
          rw [hm] at h
          have h2 : Except.mapError Error.config
              (from_arg_matches (toArgMatches ValueSource.commandLine clM)) =
              Except.error err := h
          cases hfa : from_arg_matches (toArgMatches ValueSource.commandLine clM) with
          | error e =>
            rw [hfa] at h2
            cases h2
            exact ⟨e, rfl⟩
          | ok m => rw [hfa] at h2; cases h2
      · have hap' : (toArgMatches ValueSource.commandLine uM).argsPresent = false := by
          simpa using hap
        simp only [hap', Bool.not_false, if_true] at h
        cases hfa : from_arg_matches (toArgMatches ValueSource.commandLine cM) with
        | error e =>
          rw [hfa] at h
          cases h
          exact ⟨e, rfl⟩
        | ok m => rw [hfa] at h; cases h

/-- Witness for C4: the command-line-only path failing on a flag missing its
value yields the ArgParse kind, and a `--no-config` invocation ignores the
present configuration content, resolving as the direct command-line
materialization with ArgParse-wrapped failures. -/
theorem C4_error_taxonomy_witness :
    (∃ e, Error.argParse ⟨"error: a value is required for --level"⟩ = Error.argParse e) ∧
    init ["et", "--no-config"] (some ["--", "--hidden"]) =
      (from_arg_matches (toArgMatches ValueSource.commandLine
          [("no_config", ["true"])])).mapError Error.argParse :=
  ⟨C4_error_taxonomy.2.2.2.1 ["et", "--level"]
      (Error.argParse ⟨"error: a value is required for --level"⟩) (by decide),
    C4_error_taxonomy.2.2.2.2.1 ["et", "--no-config"] (some ["--", "--hidden"])
      [("no_config", ["true"])] (by decide) (by decide)⟩

/-- **C5**: when configuration content is found and the user supplied zero
explicit tokens, initialization parses the config-file-derived tokens
directly — the result equals the one obtained from the config tokens alone
(the Precedence Merger is not consulted), and any failure on this path is
of the Config kind. -/
theorem C5_config_only_path (ut ct : List String) (uM : Matches)
    (hu : getMatchesFrom ut = Except.ok uM)
    (hnc : noConfigOf (toArgMatches ValueSource.commandLine uM) = false)
    (hap : (toArgMatches ValueSource.commandLine uM).argsPresent = false) :
    init ut (some ct) =
      (match getMatchesFrom ct with
       | Except.error e => Except.error (Error.config e)
       | Except.ok cM =>
         (from_arg_matches (toArgMatches ValueSource.commandLine cM)).mapError
           Error.config) := by
  rw [init_config_path ut ct uM hu hnc]
  cases hc : getMatchesFrom ct with
  | error e => rfl
  | ok cM =>
    simp only [hap, Bool.not_false, if_true]

/-- Witness for C5: an empty invocation with a config file carrying
`--hidden` resolves to the config's choice. -/
theorem C5_config_only_path_witness :
    init ["et"] (some ["--", "--hidden"]) =
      (match getMatchesFrom ["--", "--hidden"] with
       | Except.error e => Except.error (Error.config e)
       | Except.ok cM =>
         (from_arg_matches (toArgMatches ValueSource.commandLine cM)).mapError
           Error.config) :=
  C5_config_only_path ["et"] ["--", "--hidden"] [] (by decide) (by decide) (by decide)

/-- **C8**: for every input — malformed or not — initialization returns a
value: either a resolved configuration or an error of one of the two
documented kinds; no other outcome exists in the model (all failure paths
produce error values). -/
theorem C8_total_error_return (ut : List String) (cfg : Option (List String)) :
    (∃ m, init ut cfg = Except.ok m) ∨
    (∃ e, init ut cfg = Except.error (Error.argParse e) ∨
      init ut cfg = Except.error (Error.config e)) := by
  cases h : init ut cfg with
  | ok m => exact Or.inl ⟨m, rfl⟩
  | error err =>
    cases err with
    | argParse e => exact Or.inr ⟨e, Or.inl rfl⟩
    | config e => exact Or.inr ⟨e, Or.inr rfl⟩

/-! ## Structure of the merged canonical sequence -/

/-- The Parsed Argument Set the ordinary precedence rule picks an
identifier's value from: the command-line set exactly when its provenance
there is CommandLine, otherwise the config set. -/
def pickedFrom (u c : ArgMatches) (id : String) : Option (List String) :=
  match u.valueSource id with
  | some ValueSource.commandLine => u.tryGetRaw id
  | some _ => c.tryGetRaw id
  | none => c.tryGetRaw id

/-- The token segment one merge-loop iteration appends for one
identifier. -/
def segTokens (u c : ArgMatches) (id : String) : List String :=
  if id = "Context" then []
  else
    match (if id = "dir" then u.tryGetRaw id else none) with
    | some raw => raw
    | none => renderTokens id ((pickedFrom u c id).getD [])

theorem mergeStep_eq_seg (u c : ArgMatches) (args : List String) (id : String) :
    mergeStep u c args id = args ++ segTokens u c id := by
  unfold mergeStep segTokens
  by_cases h : id = "Context"
  · rw [if_pos h, if_pos h, List.append_nil]
  · rw [if_neg h, if_neg h]
    cases hd : (if id = "dir" then u.tryGetRaw id else none) with
    | some raw => rfl
    | none =>
      unfold pickedFrom
      cases hv : u.valueSource id with
      | none => exact pick_eq_render id c args
      | some src =>
        cases src with
        | commandLine => exact pick_eq_render id u args
        | envVariable => exact pick_eq_render id c args
        | defaultValue => exact pick_eq_render id c args

theorem foldl_mergeStep (u c : ArgMatches) :
    ∀ (l : List String) (args : List String),
      l.foldl (mergeStep u c) args = args ++ (l.map (segTokens u c)).flatten := by
  intro l
  induction l with
  | nil =>
    intro args
    simp
  | cons x xs ih =>
    intro args
    simp only [List.foldl_cons, List.map_cons, List.flatten_cons, mergeStep_eq_seg, ih,
      List.append_assoc]

theorem mergeArgs_eq (u c : ArgMatches) :
    mergeArgs u c =
      "--" :: ((uniq (u.ids ++ c.ids)).map (segTokens u c)).flatten := by
  unfold mergeArgs
  rw [foldl_mergeStep]
  rfl

/-- The raw values the Re-parser records for one identifier when it parses
that identifier's rendered segment. -/
def segVals (u c : ArgMatches) (id : String) : List String :=
  if id = "Context" then []
  else
    match (if id = "dir" then u.tryGetRaw id else none) with
    | some raw => raw
    | none =>
      match flagKind id with
      | some ArgKind.boolean =>
        if (pickedFrom u c id).getD [] = ["true"] then ["true"] else []
      | _ => (pickedFrom u c id).getD []

/-- Record a list of raw values for one identifier, in order. -/
def pushList (st : Matches) (id : String) (vs : List String) : Matches :=
  vs.foldl (fun s v => pushVal s id v) st

/-- Well-formedness of one identifier's segment: the conditions under which
the Re-parser consumes the rendered segment into exactly that identifier's
values. -/
def SegOK (u c : ArgMatches) (id : String) : Prop :=
  id = "Context" ∨
  (id = "dir" ∧
    ((∃ raw, u.tryGetRaw "dir" = some raw ∧ raw.length ≤ 1 ∧
        ∀ v ∈ raw, longFlagId v = none) ∨
      (u.tryGetRaw "dir" = none ∧ pickedFrom u c "dir" = none))) ∨
  (flagKind id = some ArgKind.boolean ∧
    ((pickedFrom u c id).getD [] = [] ∨ (pickedFrom u c id).getD [] = ["true"] ∨
      (pickedFrom u c id).getD [] = ["false"])) ∨
  (flagKind id = some ArgKind.valued ∧
    ∀ v ∈ (pickedFrom u c id).getD [], v ≠ "true" ∧ v ≠ "false")

theorem parse_valued_chunks (id : String) (hk : flagKind id = some ArgKind.valued) :
    ∀ (raws : List String) (st : Matches) (rest : List String),
      parseTokens (((raws.map (fun v => [flagTok id, v])).flatten) ++ rest) st =
        parseTokens rest (pushList st id raws) := by
  intro raws
  induction raws with
  | nil =>
    intro st rest
    rfl
  | cons v vs ih =>
    intro st rest
    have hl := (flagKind_facts hk).1
    simp only [List.map_cons, List.flatten_cons, List.cons_append, List.nil_append,
      List.append_assoc]
    simp only [parseTokens, hl, hk]
    exact ih (pushVal st id v) rest

theorem flagKind_ne_context {id : String} {k : ArgKind} (hk : flagKind id = some k) :
    id ≠ "Context" := by
  intro hc
  subst hc
  rw [show flagKind "Context" = none from by decide] at hk
  cases hk

theorem flagKind_ne_dir {id : String} {k : ArgKind} (hk : flagKind id = some k) :
    id ≠ "dir" := by
  intro hc
  subst hc
  rw [show flagKind "dir" = none from by decide] at hk
  cases hk

theorem segTokens_flag (u c : ArgMatches) (id : String)
    (h1 : id ≠ "Context") (h2 : id ≠ "dir") :
    segTokens u c id = renderTokens id ((pickedFrom u c id).getD []) := by
  unfold segTokens
  rw [if_neg h1, if_neg h2]

theorem segVals_bool (u c : ArgMatches) (id : String)
    (hk : flagKind id = some ArgKind.boolean) (h1 : id ≠ "Context") (h2 : id ≠ "dir") :
    segVals u c id = if (pickedFrom u c id).getD [] = ["true"] then ["true"] else [] := by
  unfold segVals
  rw [if_neg h1, if_neg h2, hk]

theorem segVals_valued (u c : ArgMatches) (id : String)
    (hk : flagKind id = some ArgKind.valued) (h1 : id ≠ "Context") (h2 : id ≠ "dir") :
    segVals u c id = (pickedFrom u c id).getD [] := by
  unfold segVals
  rw [if_neg h1, if_neg h2, hk]

theorem parse_seg (u c : ArgMatches) (id : String) (h : SegOK u c id)
    (st : Matches) (rest : List String)
    (hdir : id = "dir" → lookupVals st "dir" = none) :
    parseTokens (segTokens u c id ++ rest) st =
      parseTokens rest (pushList st id (segVals u c id)) := by
  rcases h with hctx | ⟨hdirid, hcase⟩ | ⟨hk, hvals⟩ | ⟨hk, hvals⟩
  · subst hctx
    rw [show segTokens u c "Context" = [] from rfl, show segVals u c "Context" = [] from rfl]
    rfl
  · subst hdirid
    rcases hcase with ⟨raw, hraw, hlen, hflags⟩ | ⟨hnone, hpick⟩
    · have hseg : segTokens u c "dir" = raw := by
        unfold segTokens
        rw [if_neg (by decide), if_pos rfl, hraw]
      have hsv : segVals u c "dir" = raw := by
        unfold segVals
        rw [if_neg (by decide), if_pos rfl, hraw]
      rw [hseg, hsv]
      cases raw with
      | nil => rfl
      | cons v vtl =>
        cases vtl with
        | nil =>
          have hv := hflags v (List.mem_cons_self v [])
          simp only [List.cons_append, List.nil_append, parseTokens, hv, hdir rfl]
          rfl
        | cons w wtl => simp at hlen
    · have hseg : segTokens u c "dir" = [] := by
        unfold segTokens
        rw [if_neg (by decide), if_pos rfl, hnone, hpick]
        rfl
      have hsv : segVals u c "dir" = [] := by
        unfold segVals
        rw [if_neg (by decide), if_pos rfl, hnone,
          show flagKind "dir" = none from by decide, hpick]
        rfl
      rw [hseg, hsv]
      rfl
  · have h1 := flagKind_ne_context hk
    have h2 := flagKind_ne_dir hk
    rw [segTokens_flag u c id h1 h2, segVals_bool u c id hk h1 h2]
    rcases hvals with h0 | ht | hf
    · rw [h0, renderTokens_nil, if_neg (by decide)]
      rfl
    · rw [ht, renderTokens_true id (flagKind_facts hk).2.1, if_pos rfl]
      have hl := (flagKind_facts hk).1
      simp only [List.cons_append, List.nil_append, parseTokens, hl, hk]
      rfl
    · rw [hf, renderTokens_false, if_neg (by decide)]
      rfl
  · have h1 := flagKind_ne_context hk
    have h2 := flagKind_ne_dir hk
    rw [segTokens_flag u c id h1 h2, segVals_valued u c id hk h1 h2]
    rw [renderTokens_valued id (flagKind_facts hk).2.1 _ hvals]
    exact parse_valued_chunks id hk _ st rest

theorem lookupVals_pushList_other : ∀ (vs : List String) (st : Matches) (id j : String),
    id ≠ j → lookupVals (pushList st id vs) j = lookupVals st j := by
  intro vs
  induction vs with
  | nil => intro st id j _; rfl
  | cons v vtl ih =>
    intro st id j h
    rw [show pushList st id (v :: vtl) = pushList (pushVal st id v) id vtl from rfl,
      ih (pushVal st id v) id j h, lookupVals_pushVal_other st id j v h]

theorem lookupVals_pushList_same : ∀ (vs : List String) (st : Matches) (id : String),
    lookupVals (pushList st id vs) id =
      if vs = [] then lookupVals st id
      else some ((lookupVals st id).getD [] ++ vs) := by
  intro vs
  induction vs with
  | nil => intro st id; rw [if_pos rfl]; rfl
  | cons v vtl ih =>
    intro st id
    rw [if_neg (by simp)]
    rw [show pushList st id (v :: vtl) = pushList (pushVal st id v) id vtl from rfl,
      ih (pushVal st id v) id]
    by_cases hv : vtl = []
    · subst hv
      rw [if_pos rfl, lookupVals_pushVal_same st id v]
    · rw [if_neg hv, lookupVals_pushVal_same st id v]
      simp

/-- Parsing the concatenated rendered segments of a set of identifiers
accumulates exactly the per-identifier values, provided every segment is
well-formed and the identifiers are distinct. -/
theorem parse_segs (u c : ArgMatches) :
    ∀ (ids : List String) (st : Matches),
      (∀ id ∈ ids, SegOK u c id) → ids.Nodup →
      ("dir" ∈ ids → lookupVals st "dir" = none) →
      parseTokens ((ids.map (segTokens u c)).flatten) st =
        Except.ok (ids.foldl (fun s id => pushList s id (segVals u c id)) st) := by
  intro ids
  induction ids with
  | nil =>
    intro st _ _ _
    rfl
  | cons id rest ih =>
    intro st hok hnd hdir
    simp only [List.map_cons, List.flatten_cons]
    rw [parse_seg u c id (hok id (List.mem_cons_self id rest)) st _
      (fun hd => hdir (hd ▸ List.mem_cons_self id rest))]
    rw [List.foldl_cons]
    apply ih
    · intro j hj
      exact hok j (List.mem_cons_of_mem id hj)
    · exact (List.nodup_cons.mp hnd).2
    · intro hdmem
      by_cases hid : id = "dir"
      · exact absurd (hid ▸ hdmem) (List.nodup_cons.mp hnd).1
      · rw [lookupVals_pushList_other _ st id "dir" hid]
        exact hdir (List.mem_cons_of_mem id hdmem)

theorem lookup_foldl_not_mem (u c : ArgMatches) :
    ∀ (ids : List String) (st : Matches) (j : String), j ∉ ids →
      lookupVals (ids.foldl (fun s id => pushList s id (segVals u c id)) st) j =
        lookupVals st j := by
  intro ids
  induction ids with
  | nil => intro st j _; rfl
  | cons id rest ih =>
    intro st j hj
    rw [List.foldl_cons, ih _ j (fun hc => hj (List.mem_cons_of_mem id hc)),
      lookupVals_pushList_other _ st id j (fun hc => hj (hc ▸ List.mem_cons_self id rest))]

theorem lookup_foldl_mem (u c : ArgMatches) :
    ∀ (ids : List String) (st : Matches) (j : String), j ∈ ids → ids.Nodup →
      lookupVals (ids.foldl (fun s id => pushList s id (segVals u c id)) st) j =
        if segVals u c j = [] then lookupVals st j
        else some ((lookupVals st j).getD [] ++ segVals u c j) := by
  intro ids
  induction ids with
  | nil => intro st j hj; cases hj
  | cons id rest ih =>
    intro st j hj hnd
    rw [List.foldl_cons]
    by_cases hid : j = id
    · subst hid
      have hnot : j ∉ rest := (List.nodup_cons.mp hnd).1
      rw [lookup_foldl_not_mem u c rest _ j hnot, lookupVals_pushList_same]
    · have hjr : j ∈ rest := by
        cases List.mem_cons.mp hj with
        | inl h => exact absurd h hid
        | inr h => exact h
      rw [ih _ j hjr (List.nodup_cons.mp hnd).2,
        lookupVals_pushList_other _ st id j (fun hc => hid hc.symm)]

theorem lookup_final (u c : ArgMatches) (ids : List String) (j : String)
    (hj : j ∈ ids) (hnd : ids.Nodup) :
    lookupVals (ids.foldl (fun s id => pushList s id (segVals u c id)) []) j =
      if segVals u c j = [] then none else some (segVals u c j) := by
  rw [lookup_foldl_mem u c ids [] j hj hnd]
  by_cases hz : segVals u c j = []
  · rw [if_pos hz, if_pos hz]
    rfl
  · rw [if_neg hz, if_neg hz]
    rfl

/-! ## Well-formed Parsed Argument Sets -/

/-- Schema-validity of a Parsed Argument Set (the §3 invariants plus the
literal-freedom proviso): every entry is the synthetic root, the positional
directory (at most one non-flag raw value), a boolean flag valued by a
boolean literal, or a valued option whose values avoid the boolean
literals. -/
def WFSet (m : ArgMatches) : Prop :=
  ∀ e ∈ m.entries,
    e.id = "Context" ∨
    (e.id = "dir" ∧ e.raws.length ≤ 1 ∧ ∀ v ∈ e.raws, longFlagId v = none) ∨
    (flagKind e.id = some ArgKind.boolean ∧ (e.raws = ["true"] ∨ e.raws = ["false"])) ∨
    (flagKind e.id = some ArgKind.valued ∧ ∀ v ∈ e.raws, v ≠ "true" ∧ v ≠ "false")

theorem tryGetRaw_entry {m : ArgMatches} {id : String} {raws : List String}
    (h : m.tryGetRaw id = some raws) :
    ∃ e ∈ m.entries, e.id = id ∧ e.raws = raws := by
  unfold ArgMatches.tryGetRaw at h
  cases hf : m.entries.find? (fun e => e.id == id) with
  | none => rw [hf] at h; cases h
  | some e =>
    rw [hf] at h
    refine ⟨e, List.mem_of_find?_eq_some hf, ?_, ?_⟩
    · have := List.find?_some hf
      simpa using this
    · simpa using h

theorem wf_of_tryGetRaw {m : ArgMatches} (hm : WFSet m) {id : String} {raws : List String}
    (h : m.tryGetRaw id = some raws) :
    id = "Context" ∨
    (id = "dir" ∧ raws.length ≤ 1 ∧ ∀ v ∈ raws, longFlagId v = none) ∨
    (flagKind id = some ArgKind.boolean ∧ (raws = ["true"] ∨ raws = ["false"])) ∨
    (flagKind id = some ArgKind.valued ∧ ∀ v ∈ raws, v ≠ "true" ∧ v ≠ "false") := by
  obtain ⟨e, hmem, hid, hraws⟩ := tryGetRaw_entry h
  have := hm e hmem
  rw [hid, hraws] at this
  exact this

theorem tryGetRaw_none_iff (m : ArgMatches) (id : String) :
    m.tryGetRaw id = none ↔ m.valueSource id = none := by
  unfold ArgMatches.tryGetRaw ArgMatches.valueSource
  cases m.entries.find? (fun e => e.id == id) <;> simp

theorem mem_ids_of_tryGetRaw {m : ArgMatches} {id : String} {raws : List String}
    (h : m.tryGetRaw id = some raws) : id ∈ m.ids := by
  obtain ⟨e, hmem, hid, _⟩ := tryGetRaw_entry h
  exact hid ▸ List.mem_map_of_mem (fun e => e.id) hmem

theorem picked_cases (u c : ArgMatches) (id : String) :
    pickedFrom u c id = u.tryGetRaw id ∨ pickedFrom u c id = c.tryGetRaw id := by
  unfold pickedFrom
  cases u.valueSource id with
  | none => exact Or.inr rfl
  | some src => cases src <;> [exact Or.inl rfl; exact Or.inr rfl; exact Or.inr rfl]

theorem wf_raws {m : ArgMatches} (hm : WFSet m) {id : String} {raws : List String}
    (h : m.tryGetRaw id = some raws) {k : ArgKind} (hk : flagKind id = some k) :
    (k = ArgKind.boolean → raws = ["true"] ∨ raws = ["false"]) ∧
    (k = ArgKind.valued → ∀ v ∈ raws, v ≠ "true" ∧ v ≠ "false") := by
  rcases wf_of_tryGetRaw hm h with hctx | ⟨hd, _⟩ | ⟨hb, hlit⟩ | ⟨hv, hlit⟩
  · exact absurd hctx (flagKind_ne_context hk)
  · exact absurd hd (flagKind_ne_dir hk)
  · rw [hb] at hk
    cases hk
    exact ⟨fun _ => hlit, fun hc => absurd hc (by decide)⟩
  · rw [hv] at hk
    cases hk
    exact ⟨fun hc => absurd hc (by decide), fun _ => hlit⟩

theorem bool_picked_ok {m : ArgMatches} (hm : WFSet m) {id : String}
    (hk : flagKind id = some ArgKind.boolean) :
    (m.tryGetRaw id).getD [] = [] ∨ (m.tryGetRaw id).getD [] = ["true"] ∨
      (m.tryGetRaw id).getD [] = ["false"] := by
  cases hraw : m.tryGetRaw id with
  | none => exact Or.inl rfl
  | some raws =>
    rcases (wf_raws hm hraw hk).1 rfl with h | h
    · rw [Option.getD_some, h]
      exact Or.inr (Or.inl rfl)
    · rw [Option.getD_some, h]
      exact Or.inr (Or.inr rfl)

theorem valued_picked_ok {m : ArgMatches} (hm : WFSet m) {id : String}
    (hk : flagKind id = some ArgKind.valued) :
    ∀ v ∈ (m.tryGetRaw id).getD [], v ≠ "true" ∧ v ≠ "false" := by
  cases hraw : m.tryGetRaw id with
  | none =>
    intro v hv
    exact absurd hv (List.not_mem_nil v)
  | some raws =>
    rw [Option.getD_some]
    exact (wf_raws hm hraw hk).2 rfl

theorem segOK_of_wf (u c : ArgMatches) (hu : WFSet u) (hc : WFSet c)
    (hdir : u.tryGetRaw "dir" = none → c.tryGetRaw "dir" = none) :
    ∀ id ∈ uniq (u.ids ++ c.ids), SegOK u c id := by
  intro id hid
  by_cases hctx : id = "Context"
  · exact Or.inl hctx
  by_cases hd : id = "dir"
  · subst hd
    refine Or.inr (Or.inl ⟨rfl, ?_⟩)
    cases hraw : u.tryGetRaw "dir" with
    | some raw =>
      rcases wf_of_tryGetRaw hu hraw with h1 | ⟨_, hlen, hflags⟩ | ⟨hb, _⟩ | ⟨hv, _⟩
      · exact absurd h1 (by decide)
      · exact Or.inl ⟨raw, rfl, hlen, hflags⟩
      · exact absurd hb (by decide)
      · exact absurd hv (by decide)
    | none =>
      refine Or.inr ⟨rfl, ?_⟩
      have hvs : u.valueSource "dir" = none := (tryGetRaw_none_iff u "dir").mp hraw
      unfold pickedFrom
      rw [hvs]
      exact hdir hraw
  · have hmem : id ∈ u.ids ++ c.ids := ((mem_uniqAux _ _).mp hid).1
    have hkex : ∃ k, flagKind id = some k := by
      rcases List.mem_append.mp hmem with hm | hm
      · rcases List.mem_map.mp hm with ⟨e, he, hid'⟩
        rcases hu e he with h1 | ⟨h2, _⟩ | ⟨h3, _⟩ | ⟨h4, _⟩
        · exact absurd (hid' ▸ h1) hctx
        · exact absurd (hid' ▸ h2) hd
        · exact ⟨ArgKind.boolean, hid' ▸ h3⟩
        · exact ⟨ArgKind.valued, hid' ▸ h4⟩
      · rcases List.mem_map.mp hm with ⟨e, he, hid'⟩
        rcases hc e he with h1 | ⟨h2, _⟩ | ⟨h3, _⟩ | ⟨h4, _⟩
        · exact absurd (hid' ▸ h1) hctx
        · exact absurd (hid' ▸ h2) hd
        · exact ⟨ArgKind.boolean, hid' ▸ h3⟩
        · exact ⟨ArgKind.valued, hid' ▸ h4⟩
    obtain ⟨k, hk⟩ := hkex
    cases k with
    | boolean =>
      refine Or.inr (Or.inr (Or.inl ⟨hk, ?_⟩))
      rcases picked_cases u c id with hp | hp
      · rw [hp]
        exact bool_picked_ok hu hk
      · rw [hp]
        exact bool_picked_ok hc hk
    | valued =>
      refine Or.inr (Or.inr (Or.inr ⟨hk, ?_⟩))
      rcases picked_cases u c id with hp | hp
      · rw [hp]
        exact valued_picked_ok hu hk
      · rw [hp]
        exact valued_picked_ok hc hk

theorem valueOf_final (u c : ArgMatches) (ids : List String) (id : String) (k : ArgKind)
    (hk : flagKind id = some k) (hmem : id ∈ ids) (hnd : ids.Nodup)
    (raws : List String) (hpicked : pickedFrom u c id = some raws)
    (hgood : k = ArgKind.boolean → raws = ["true"] ∨ raws = ["false"]) :
    valueOf (ids.foldl (fun s i => pushList s i (segVals u c i)) []) id = raws := by
  have h1 := flagKind_ne_context hk
  have h2 := flagKind_ne_dir hk
  have hlook := lookup_final u c ids id hmem hnd
  cases k with
  | boolean =>
    have hsv := segVals_bool u c id hk h1 h2
    rw [hpicked, Option.getD_some] at hsv
    rcases hgood rfl with h | h
    · subst h
      rw [if_pos rfl] at hsv
      rw [hsv, if_neg (by decide)] at hlook
      unfold valueOf
      rw [hlook]
    · subst h
      rw [if_neg (by decide)] at hsv
      rw [hsv, if_pos rfl] at hlook
      unfold valueOf
      rw [hlook, hk]
  | valued =>
    have hsv := segVals_valued u c id hk h1 h2
    rw [hpicked, Option.getD_some] at hsv
    by_cases hz : raws = []
    · subst hz
      rw [hsv, if_pos rfl] at hlook
      unfold valueOf
      rw [hlook, hk]
    · rw [hsv, if_neg hz] at hlook
      unfold valueOf
      rw [hlook]

/-! ## Claim theorems: precedence and the directory special case -/

/-- **C1, counterexamples to the claim as stated**, one per divergence the
amended hypotheses guard against.  (a) With the user explicitly passing
`--glob false` (CommandLine provenance, raw value `"false"`), the merged
sequence drops the option entirely, the re-parse succeeds, and the final
value for `glob` is not the command-line set's value.  (b) With the
positional directory supplied by the config set alone, the merge renders a
`--dir` token the re-parser rejects, so no final Configuration exists at
all even though `hidden` carries CommandLine provenance.  (c) With a
flag-shaped command-line directory raw value, the verbatim copy corrupts
the re-parse of the explicitly passed `--level 5`.  (d) With two raw
directory values, the re-parse rejects the second bare token. -/
theorem C1_counterexample :
    ((⟨[⟨"glob", ["false"], ValueSource.commandLine⟩]⟩ : ArgMatches).valueSource "glob" =
        some ValueSource.commandLine ∧
      (⟨[⟨"glob", ["false"], ValueSource.commandLine⟩]⟩ : ArgMatches).tryGetRaw "glob" =
        some ["false"] ∧
      (⟨[⟨"glob", ["false"], ValueSource.commandLine⟩]⟩ : ArgMatches).argsPresent = true ∧
      getMatchesFrom (mergeArgs ⟨[⟨"glob", ["false"], ValueSource.commandLine⟩]⟩
          ⟨[⟨"hidden", ["true"], ValueSource.commandLine⟩]⟩) =
        Except.ok [("hidden", ["true"])] ∧
      valueOf [("hidden", ["true"])] "glob" ≠ ["false"]) ∧
    ((⟨[⟨"hidden", ["true"], ValueSource.commandLine⟩]⟩ : ArgMatches).valueSource "hidden" =
        some ValueSource.commandLine ∧
      getMatchesFrom (mergeArgs ⟨[⟨"hidden", ["true"], ValueSource.commandLine⟩]⟩
          ⟨[⟨"dir", ["/x"], ValueSource.commandLine⟩]⟩) =
        Except.error ⟨"error: unexpected argument --dir"⟩) ∧
    ((⟨[⟨"level", ["5"], ValueSource.commandLine⟩,
        ⟨"dir", ["--level"], ValueSource.commandLine⟩]⟩ : ArgMatches).valueSource "level" =
        some ValueSource.commandLine ∧
      getMatchesFrom (mergeArgs ⟨[⟨"level", ["5"], ValueSource.commandLine⟩,
          ⟨"dir", ["--level"], ValueSource.commandLine⟩]⟩ ⟨[]⟩) =
        Except.error ⟨"error: a value is required for --level"⟩) ∧
    ((⟨[⟨"hidden", ["true"], ValueSource.commandLine⟩,
        ⟨"dir", ["a", "b"], ValueSource.commandLine⟩]⟩ : ArgMatches).valueSource "hidden" =
        some ValueSource.commandLine ∧
      getMatchesFrom (mergeArgs ⟨[⟨"hidden", ["true"], ValueSource.commandLine⟩,
          ⟨"dir", ["a", "b"], ValueSource.commandLine⟩]⟩ ⟨[]⟩) =
        Except.error ⟨"error: unexpected argument b"⟩) := by
  decide

/-- **C1, amended**: for schema-valid argument sets whose non-boolean raw
values avoid the boolean literals, and whose positional directory does not
come from the config set alone, the merged canonical sequence re-parses
successfully and — for every flag identifier — the final value is the
command-line set's value when its provenance there is CommandLine, and the
config set's value when the option is absent from the command-line set or
present there only with Default provenance. -/
theorem C1_precedence (u c : ArgMatches) (id : String) (k : ArgKind)
    (hu : WFSet u) (hc : WFSet c)
    (hdir : u.tryGetRaw "dir" = none → c.tryGetRaw "dir" = none)
    (hk : flagKind id = some k) :
    ∃ st, getMatchesFrom (mergeArgs u c) = Except.ok st ∧
      (u.valueSource id = some ValueSource.commandLine →
        ∀ raws, u.tryGetRaw id = some raws → valueOf st id = raws) ∧
      ((u.valueSource id = none ∨ u.valueSource id = some ValueSource.defaultValue) →
        ∀ raws, c.tryGetRaw id = some raws → valueOf st id = raws) := by
  have hnd : (uniq (u.ids ++ c.ids)).Nodup := nodup_uniqAux _ []
  have hsegok := segOK_of_wf u c hu hc hdir
  refine ⟨(uniq (u.ids ++ c.ids)).foldl (fun s i => pushList s i (segVals u c i)) [],
    ?_, ?_, ?_⟩
  · unfold getMatchesFrom
    rw [mergeArgs_eq]
    exact parse_segs u c _ [] hsegok hnd (fun _ => rfl)
  · intro hvs raws hraw
    have hpicked : pickedFrom u c id = some raws := by
      unfold pickedFrom
      rw [hvs, hraw]
    have hmem : id ∈ uniq (u.ids ++ c.ids) :=
      (mem_uniqAux _ _).mpr
        ⟨List.mem_append.mpr (Or.inl (mem_ids_of_tryGetRaw hraw)), List.not_mem_nil id⟩
    exact valueOf_final u c _ id k hk hmem hnd raws hpicked (wf_raws hu hraw hk).1
  · intro hvs raws hraw
    have hpicked : pickedFrom u c id = some raws := by
      unfold pickedFrom
      rcases hvs with h | h
      · rw [h, hraw]
      · rw [h, hraw]
    have hmem : id ∈ uniq (u.ids ++ c.ids) :=
      (mem_uniqAux _ _).mpr
        ⟨List.mem_append.mpr (Or.inr (mem_ids_of_tryGetRaw hraw)), List.not_mem_nil id⟩
    exact valueOf_final u c _ id k hk hmem hnd raws hpicked (wf_raws hc hraw hk).1

/-- **C2**: when the command-line set carries a raw value for the positional
`dir`, that raw value is copied verbatim into the canonical token sequence
(it is the `dir` segment and appears contiguously in the merged sequence),
and the config set's `dir` value is never consulted — the merged sequence
is unchanged under any modification of the config set away from `dir`-equal
entries; when the command-line set has no raw value for `dir`, the ordinary
per-option precedence dispatch applies to it instead. -/
theorem C2_dir_special (u c : ArgMatches) :
    (∀ raw, u.tryGetRaw "dir" = some raw →
      segTokens u c "dir" = raw ∧
      raw <:+: mergeArgs u c ∧
      ∀ c₂ : ArgMatches, c₂.ids = c.ids →
        (∀ j, j ≠ "dir" →
          c₂.tryGetRaw j = c.tryGetRaw j ∧ c₂.valueSource j = c.valueSource j) →
        mergeArgs u c₂ = mergeArgs u c) ∧
    (u.tryGetRaw "dir" = none →
      ∀ args, mergeStep u c args "dir" =
        match u.valueSource "dir" with
        | some ValueSource.commandLine => pick_args_from "dir" u args
        | _ => pick_args_from "dir" c args) := by
  constructor
  · intro raw hraw
    have hseg : segTokens u c "dir" = raw := by
      unfold segTokens
      rw [if_neg (by decide), if_pos rfl, hraw]
    refine ⟨hseg, ?_, ?_⟩
    · have hdirmem : "dir" ∈ uniq (u.ids ++ c.ids) :=
        (mem_uniqAux _ _).mpr
          ⟨List.mem_append.mpr (Or.inl (mem_ids_of_tryGetRaw hraw)),
            List.not_mem_nil "dir"⟩
      obtain ⟨s, t, hst⟩ := List.append_of_mem hdirmem
      refine ⟨"--" :: (s.map (segTokens u c)).flatten, (t.map (segTokens u c)).flatten, ?_⟩
      rw [mergeArgs_eq, hst]
      simp only [List.map_append, List.map_cons, List.flatten_append, List.flatten_cons,
        hseg, List.cons_append, List.append_assoc]
    · intro c₂ hids heq
      rw [mergeArgs_eq, mergeArgs_eq, hids]
      congr 1
      congr 1
      apply List.map_congr_left
      intro j hj
      by_cases hjc : j = "Context"
      · subst hjc
        rfl
      by_cases hjd : j = "dir"
      · subst hjd
        have h2 : segTokens u c₂ "dir" = raw := by
          unfold segTokens
          rw [if_neg (by decide), if_pos rfl, hraw]
        rw [h2, hseg]
      · rw [segTokens_flag u c₂ j hjc hjd, segTokens_flag u c j hjc hjd]
        have hp : pickedFrom u c₂ j = pickedFrom u c j := by
          unfold pickedFrom
          cases hv : u.valueSource j with
          | none => exact (heq j hjd).1
          | some src =>
            cases src with
            | commandLine => rfl
            | envVariable => exact (heq j hjd).1
            | defaultValue => exact (heq j hjd).1
        rw [hp]
  · intro h args
    unfold mergeStep
    rw [if_neg (by decide), if_pos rfl, h]
    cases hv : u.valueSource "dir" with
    | none => rfl
    | some src => cases src <;> rfl

/-- Witness for C2: an explicit command-line `.` directory survives verbatim
and the merged sequence is independent of the config set's directory. -/
theorem C2_dir_special_witness :
    mergeArgs ⟨[⟨"dir", ["."], ValueSource.commandLine⟩]⟩
        ⟨[⟨"dir", ["/other"], ValueSource.commandLine⟩]⟩ =
      mergeArgs ⟨[⟨"dir", ["."], ValueSource.commandLine⟩]⟩
        ⟨[⟨"dir", ["/cfg"], ValueSource.commandLine⟩]⟩ :=
  ((C2_dir_special ⟨[⟨"dir", ["."], ValueSource.commandLine⟩]⟩
      ⟨[⟨"dir", ["/cfg"], ValueSource.commandLine⟩]⟩).1 ["."] (by decide)).2.2
    ⟨[⟨"dir", ["/other"], ValueSource.commandLine⟩]⟩ (by decide)
    (fun j hj => by
      have hb : (("dir" : String) == j) = false :=
        beq_eq_false_iff_ne.mpr (fun h => hj h.symm)
      exact ⟨by simp [ArgMatches.tryGetRaw, List.find?, hb],
        by simp [ArgMatches.valueSource, List.find?, hb]⟩)

/-- Witness for C1: command-line `--level 5` against a config carrying
`--level 3 --hidden` (spec scenario 3). -/
theorem C1_precedence_witness :
    ∃ st,
      getMatchesFrom (mergeArgs ⟨[⟨"level", ["5"], ValueSource.commandLine⟩]⟩
          ⟨[⟨"level", ["3"], ValueSource.commandLine⟩,
            ⟨"hidden", ["true"], ValueSource.commandLine⟩]⟩) = Except.ok st ∧
      ((⟨[⟨"level", ["5"], ValueSource.commandLine⟩]⟩ : ArgMatches).valueSource "level" =
          some ValueSource.commandLine →
        ∀ raws,
          (⟨[⟨"level", ["5"], ValueSource.commandLine⟩]⟩ : ArgMatches).tryGetRaw "level" =
            some raws → valueOf st "level" = raws) ∧
      (((⟨[⟨"level", ["5"], ValueSource.commandLine⟩]⟩ : ArgMatches).valueSource "level" =
          none ∨
        (⟨[⟨"level", ["5"], ValueSource.commandLine⟩]⟩ : ArgMatches).valueSource "level" =
          some ValueSource.defaultValue) →
        ∀ raws,
          (⟨[⟨"level", ["3"], ValueSource.commandLine⟩,
              ⟨"hidden", ["true"], ValueSource.commandLine⟩]⟩ : ArgMatches).tryGetRaw
            "level" = some raws → valueOf st "level" = raws) :=
  C1_precedence ⟨[⟨"level", ["5"], ValueSource.commandLine⟩]⟩
    ⟨[⟨"level", ["3"], ValueSource.commandLine⟩, ⟨"hidden", ["true"], ValueSource.commandLine⟩]⟩
    "level" ArgKind.valued (by unfold WFSet; decide) (by unfold WFSet; decide) (by decide)
    (by decide)
